import Mathlib

/-!
Verification of the `go-utils` string/integer utility library
(`pkg/utils/utils.go`) against its natural-language specification.

Go strings are modelled as their sequences of Unicode codepoints
(`List Char`), Go `int` as `Int` (with explicit wrap-around modulo `2 ^ 64`
where machine overflow matters), and a Go `error` as `Option String`
carrying the message passed to `errors.New` (`none` is Go's `nil`).
-/

namespace GoUtils

/-- A Go string, modelled as its sequence of Unicode codepoints (runes). -/
abbrev GoStr := List Char

/-- A Go `error` result: `none` is `nil`, `some msg` models `errors.New(msg)`. -/
abbrev GoErr := Option String

/-- Error kinds of the specification's error taxonomy, used to classify the
concrete error messages produced by the source. -/
inductive ErrKind
  | invalidArgument
  | invalidRange
  | tooShort
  | tooLong
  | notFound
  deriving DecidableEq

/-- Classification of each error message string appearing in the source into
the specification's error-kind taxonomy. -/
def specErrKind (e : String) : Option ErrKind :=
  if e = "min cannot be greater than max" then some ErrKind.invalidRange
  else if e = "minLength and maxLength must be non-negative" then some ErrKind.invalidRange
  else if e = "minLength cannot be greater than maxLength" then some ErrKind.invalidRange
  else if e = "string is too short" then some ErrKind.tooShort
  else if e = "string is too long" then some ErrKind.tooLong
  else if e = "n cannot be negative" then some ErrKind.invalidArgument
  else if e = "separator cannot be empty if string is not empty" then some ErrKind.invalidArgument
  else if e = "substring not found" then some ErrKind.notFound
  else none

/-- Go `Clamp(val, min, max int) (int, error)`: errors when `min > max`,
otherwise saturates `val` into `[min, max]`.  The Go parameters `min`/`max`
are rendered `lo`/`hi` here to avoid clashing with the library order functions. -/
def Clamp (val lo hi : Int) : Int × GoErr :=
  if lo > hi then (0, some ("min cannot be greater than max"))
  else if val < lo then (lo, none)
  else if val > hi then (hi, none)
  else (val, none)

/-- Go `SafeClamp(val, min, max int) (int, error)`: body identical to `Clamp`. -/
def SafeClamp (val lo hi : Int) : Int × GoErr :=
  if lo > hi then (0, some ("min cannot be greater than max"))
  else if val < lo then (lo, none)
  else if val > hi then (hi, none)
  else (val, none)

/-- Two's-complement wrap-around of an unbounded integer into the signed
64-bit range `[-2 ^ 63, 2 ^ 63)`, the semantics of Go `int` arithmetic. -/
def wrap64 (z : Int) : Int := (z + 2 ^ 63) % 2 ^ 64 - 2 ^ 63

/-- Go `Abs(n int) int`: `if n < 0 { return -n }; return n`.  The negation is
machine negation, i.e. it wraps around modulo `2 ^ 64`. -/
def Abs (n : Int) : Int := if n < 0 then wrap64 (-n) else n

/-- Go `Truncate(s string, n int) string`: first `n` runes; identity when `n`
is negative or at least the rune count. -/
def Truncate (s : GoStr) (n : Int) : GoStr :=
  if n < 0 then s
  else if (s.length : Int) ≤ n then s
  else s.take n.toNat

/-- Go `SafeTruncate(s string, n int) (string, error)`: errors when `n` is
negative, otherwise the same rune-truncation logic as `Truncate`. -/
def SafeTruncate (s : GoStr) (n : Int) : GoStr × GoErr :=
  if n < 0 then ([], some ("n cannot be negative"))
  else if (s.length : Int) ≤ n then (s, none)
  else (s.take n.toNat, none)

/-- Go `strings.Repeat(s, n)` for `n ≥ 0`: `n` copies of `s` concatenated. -/
def stringsRepeat (s : GoStr) (n : Nat) : GoStr := (List.replicate n s).flatten

/-- Go `Repeat(s string, n int) string`: empty for `n ≤ 0`, else
`strings.Repeat(s, n)`. -/
def Repeat (s : GoStr) (n : Int) : GoStr :=
  if n ≤ 0 then [] else stringsRepeat s n.toNat

/-- The builder loop of `FastRepeat`:
`for i := 0; i < n; i++ { builder.WriteString(s) }`, counting the remaining
iterations and accumulating the builder contents. -/
def fastRepeatLoop (s : GoStr) : Nat → GoStr → GoStr
  | 0, acc => acc
  | k + 1, acc => fastRepeatLoop s k (acc ++ s)

/-- Go `FastRepeat(s string, n int) string`: empty for `n ≤ 0`, `s` itself for
`n == 1`, otherwise a builder loop writing `s` exactly `n` times. -/
def FastRepeat (s : GoStr) (n : Int) : GoStr :=
  if n ≤ 0 then []
  else if n = 1 then s
  else fastRepeatLoop s n.toNat []

/-- Whether `pat` is an initial segment of `s` (the prefix test underlying
Go `strings.Index`). -/
def startsWith : GoStr → GoStr → Bool
  | _, [] => true
  | [], _ :: _ => false
  | a :: s, b :: p => a == b && startsWith s p

/-- The leftmost position at which `pat` occurs in `s`, or `none`
(Go `strings.Index`, over runes). -/
def listIndexOf : GoStr → GoStr → Option Nat
  | s, pat =>
    if startsWith s pat then some 0
    else
      match s with
      | [] => none
      | _ :: t => (listIndexOf t pat).map (fun k => k + 1)

/-- The splitting loop of Go `strings.Split` for a non-empty separator: cut at
the leftmost occurrence of `sep` and continue to the right of it.  The `Nat`
argument is recursion fuel; `goSplit` supplies more than the length of the
string, which the loop can never exhaust. -/
def splitAux (sep : GoStr) : Nat → GoStr → List GoStr
  | 0, s => [s]
  | fuel + 1, s =>
    match listIndexOf s sep with
    | none => [s]
    | some i => s.take i :: splitAux sep fuel (s.drop (i + sep.length))

/-- Go `strings.Split(s, sep)`: with an empty separator the string explodes
into its runes; otherwise it is cut around each occurrence of `sep`. -/
def goSplit (s sep : GoStr) : List GoStr :=
  if sep = [] then s.map (fun c => [c])
  else splitAux sep (s.length + 1) s

/-- Go `SafeSplit(s, sep string) ([]string, error)`.  Go's `nil` slice result
in the error case is modelled as the empty list. -/
def SafeSplit (s sep : GoStr) : List GoStr × GoErr :=
  if sep = [] ∧ s ≠ [] then
    ([], some ("separator cannot be empty if string is not empty"))
  else (goSplit s sep, none)

/-- Joining a list of parts with a separator between consecutive parts;
inverse of splitting. -/
def joinSep (sep : GoStr) : List GoStr → GoStr
  | [] => []
  | [x] => x
  | x :: y :: t => x ++ sep ++ joinSep sep (y :: t)

/-- Asserts that `pat` occurs nowhere in `s`: no drop of `s` starts with `pat`. -/
def NoOccur (s pat : GoStr) : Prop :=
  ∀ i : Nat, startsWith (s.drop i) pat = false

/-- Go `ValidateLength(s string, minLength, maxLength int) error`. -/
def ValidateLength (s : GoStr) (minLength maxLength : Int) : GoErr :=
  if minLength < 0 ∨ maxLength < 0 then
    some ("minLength and maxLength must be non-negative")
  else if minLength > maxLength then
    some ("minLength cannot be greater than maxLength")
  else if (s.length : Int) < minLength then
    some ("string is too short")
  else if (s.length : Int) > maxLength then
    some ("string is too long")
  else none

/-- Go `unicode.IsLetter(r) || unicode.IsNumber(r)`, modelled by Lean's
character classifiers as a stand-in for the Unicode tables; the theorems below
do not depend on the particular classification. -/
def goIsLetterOrNumber (c : Char) : Bool := c.isAlpha || c.isDigit

/-- Go `unicode.ToLower`, modelled by Lean's `Char.toLower` as a stand-in for
the Unicode case table; the theorems below do not depend on the particular map. -/
def goToLower (c : Char) : Char := c.toLower

/-- The in-place two-pointer swap loop of Go `Reverse`:
`for i, j := 0, len(runes)-1; i < j; i, j = i+1, j-1 { runes[i], runes[j] = runes[j], runes[i] }`. -/
def revLoop : GoStr → Nat → Nat → GoStr
  | l, i, j =>
    if _ : i < j then
      revLoop ((l.set i (l.getD j default)).set j (l.getD i default)) (i + 1) (j - 1)
    else l
termination_by _ i j => j - i

/-- Go `Reverse(s string) string`: reverse the rune slice in place. -/
def Reverse (s : GoStr) : GoStr := revLoop s 0 (s.length - 1)

/-- The rune sequence `IsPalindrome` builds before comparing: letter/digit
runes only, each lower-cased. -/
def cleanedRunes (s : GoStr) : GoStr :=
  (s.filter goIsLetterOrNumber).map goToLower

/-- The two-pointer comparison loop of Go `IsPalindrome`:
`for i, j := 0, len(cleaned)-1; i < j; i, j = i+1, j-1 { if cleaned[i] != cleaned[j] { return false } }`. -/
def palLoop (l : GoStr) : Nat → Nat → Bool
  | i, j =>
    if _ : i < j then
      (l.getD i default == l.getD j default) && palLoop l (i + 1) (j - 1)
    else true
termination_by i j => j - i

/-- Go `IsPalindrome(s string) bool`. -/
def IsPalindrome (s : GoStr) : Bool :=
  palLoop (cleanedRunes s) 0 ((cleanedRunes s).length - 1)

/-- Go `Swap(s string, i, j int) string`: runes at `i` and `j` exchanged, the
input unchanged when an index is out of bounds or the indices coincide. -/
def Swap (s : GoStr) (i j : Int) : GoStr :=
  if i < 0 ∨ j < 0 ∨ (s.length : Int) ≤ i ∨ (s.length : Int) ≤ j ∨ i = j then s
  else (s.set i.toNat (s.getD j.toNat default)).set j.toNat (s.getD i.toNat default)

/-- The accumulating loop of `FastRepeat` produces the appended repetitions. -/
theorem fastRepeatLoop_eq (s : GoStr) : ∀ (k : Nat) (acc : GoStr),
    fastRepeatLoop s k acc = acc ++ stringsRepeat s k
  | 0, acc => by simp [fastRepeatLoop, stringsRepeat]
  | k + 1, acc => by
    rw [fastRepeatLoop, fastRepeatLoop_eq s k]
    simp [stringsRepeat, List.replicate_succ]

/-- Claim C1 counterexample: with inverted bounds (low = 10 > high = 0) Clamp
reports an error rather than returning a plain saturated value, refuting the
claim that Clamp never fails. -/
theorem clamp_inverted_bounds_cex :
    Clamp 5 10 0 = (0, some ("min cannot be greater than max")) := by
  decide

/-- Claim C1 (amended): when low ≤ high, Clamp returns the saturated value
(low if value < low, high if value > high, else value) with no error; when
low > high it returns 0 together with an InvalidRange error. -/
theorem clamp_saturation_spec (val lo hi : Int) :
    (lo ≤ hi → Clamp val lo hi =
      ((if val < lo then lo else if val > hi then hi else val), none)) ∧
    (lo > hi → ∃ e, Clamp val lo hi = (0, some e) ∧
      specErrKind e = some ErrKind.invalidRange) := by
  constructor
  · intro h
    have h2 : ¬ lo > hi := not_lt.mpr h
    by_cases hv : val < lo <;> by_cases hw : val > hi <;>
      simp [Clamp, h2, hv, hw]
  · intro h
    exact ⟨"min cannot be greater than max", by simp [Clamp, h], by decide⟩

/-- Claim C1 witness: concrete in-range and inverted-bounds instances. -/
theorem clamp_saturation_spec_witness :
    Clamp 3 0 10 = (3, none) ∧
    (∃ e, Clamp 5 10 0 = (0, some e) ∧
      specErrKind e = some ErrKind.invalidRange) := by
  constructor
  · exact ((clamp_saturation_spec 3 0 10).1 (by norm_num)).trans (by norm_num)
  · exact (clamp_saturation_spec 5 10 0).2 (by norm_num)

/-- Claim C2: Clamp and SafeClamp agree on every input triple, and both return
the zero value together with the error exactly when the lower bound exceeds
the upper bound. -/
theorem clamp_safeClamp_equiv (val lo hi : Int) :
    Clamp val lo hi = SafeClamp val lo hi ∧
    (Clamp val lo hi = (0, some ("min cannot be greater than max")) ↔ lo > hi) := by
  refine ⟨rfl, ?_⟩
  by_cases h : lo > hi
  · simp [Clamp, h]
  · simp only [Clamp, if_neg h]
    constructor
    · intro hc
      exfalso
      by_cases hv : val < lo
      · simp [hv] at hc
      · by_cases hw : val > hi <;> simp [hv, hw] at hc
    · intro hc
      exact absurd hc h

/-- Claim C3: Repeat and FastRepeat produce identical output on every input;
the result is `n` concatenated copies of `s` for positive `n` and the empty
string otherwise. -/
theorem repeat_fastRepeat_equiv (s : GoStr) (n : Int) :
    Repeat s n = FastRepeat s n ∧
    Repeat s n = (if n ≤ 0 then [] else stringsRepeat s n.toNat) := by
  refine ⟨?_, rfl⟩
  by_cases h : n ≤ 0
  · simp [Repeat, FastRepeat, h]
  · by_cases h1 : n = 1
    · subst h1
      simp [Repeat, FastRepeat, stringsRepeat]
    · simp [Repeat, FastRepeat, h, h1, fastRepeatLoop_eq]

/-- Claim C4: SafeTruncate fails (with an InvalidArgument error and an empty
result value) exactly when `n` is negative, and for every `n ≥ 0` it succeeds
with the very value `Truncate` returns. -/
theorem safeTruncate_spec (s : GoStr) (n : Int) :
    ((SafeTruncate s n).2.isSome ↔ n < 0) ∧
    (n < 0 → ∃ e, SafeTruncate s n = ([], some e) ∧
      specErrKind e = some ErrKind.invalidArgument) ∧
    (0 ≤ n → SafeTruncate s n = (Truncate s n, none)) := by
  by_cases h : n < 0
  · refine ⟨?_, ?_, ?_⟩
    · simp [SafeTruncate, h]
    · intro _
      exact ⟨"n cannot be negative", by simp [SafeTruncate, h], by decide⟩
    · intro h2
      omega
  · refine ⟨?_, ?_, ?_⟩
    · by_cases h2 : (s.length : Int) ≤ n <;> simp [SafeTruncate, h, h2]
    · intro h2
      omega
    · intro _
      by_cases h2 : (s.length : Int) ≤ n <;>
        simp [SafeTruncate, Truncate, h, h2]

/-- Claim C4 witness: a negative and a nonnegative count on a concrete string. -/
theorem safeTruncate_spec_witness :
    (∃ e, SafeTruncate (("hello").toList) (-1) = ([], some e) ∧
      specErrKind e = some ErrKind.invalidArgument) ∧
    SafeTruncate (("hello").toList) 3 = (Truncate (("hello").toList) 3, none) :=
  ⟨(safeTruncate_spec (("hello").toList) (-1)).2.1 (by norm_num),
   (safeTruncate_spec (("hello").toList) 3).2.2 (by norm_num)⟩

/-- Claim C5: for every nonnegative `n` the codepoint length of
`Truncate t n` is `min (length t) n`, and for every negative `n` the function
is the identity on `t`. -/
theorem truncate_length_spec (t : GoStr) (n : Int) :
    (0 ≤ n → (Truncate t n).length = min t.length n.toNat) ∧
    (n < 0 → Truncate t n = t) := by
  constructor
  · intro h
    have h1 : ¬ n < 0 := not_lt.mpr h
    by_cases h2 : (t.length : Int) ≤ n
    · simp only [Truncate, if_neg h1, if_pos h2]
      omega
    · simp only [Truncate, if_neg h1, if_neg h2, List.length_take]
      omega
  · intro h
    simp [Truncate, h]

/-- Claim C5 witness: concrete lengths for a short and a negative count. -/
theorem truncate_length_spec_witness :
    (Truncate (("hello").toList) 3).length =
      min (("hello").toList).length (Int.toNat 3) ∧
    Truncate (("hi").toList) (-2) = ("hi").toList :=
  ⟨(truncate_length_spec (("hello").toList) 3).1 (by norm_num),
   (truncate_length_spec (("hi").toList) (-2)).2 (by norm_num)⟩

/-- Claim C6: ValidateLength fails with an InvalidRange error when a bound is
negative or the minimum exceeds the maximum; otherwise it fails with TooShort
below the minimum, with TooLong above the maximum, and succeeds in all
remaining cases. -/
theorem validateLength_spec (s : GoStr) (mi ma : Int) :
    (mi < 0 ∨ ma < 0 ∨ mi > ma →
      ∃ e, ValidateLength s mi ma = some e ∧
        specErrKind e = some ErrKind.invalidRange) ∧
    (0 ≤ mi → 0 ≤ ma → mi ≤ ma → (s.length : Int) < mi →
      ∃ e, ValidateLength s mi ma = some e ∧
        specErrKind e = some ErrKind.tooShort) ∧
    (0 ≤ mi → 0 ≤ ma → mi ≤ ma → (s.length : Int) > ma →
      ∃ e, ValidateLength s mi ma = some e ∧
        specErrKind e = some ErrKind.tooLong) ∧
    (0 ≤ mi → 0 ≤ ma → mi ≤ ma → mi ≤ (s.length : Int) → (s.length : Int) ≤ ma →
      ValidateLength s mi ma = none) := by
  refine ⟨?_, ?_, ?_, ?_⟩
  · intro h
    by_cases h1 : mi < 0 ∨ ma < 0
    · exact ⟨"minLength and maxLength must be non-negative",
        by simp [ValidateLength, h1], by decide⟩
    · have h2 : mi > ma := by omega
      refine ⟨"minLength cannot be greater than maxLength", ?_, by decide⟩
      simp [ValidateLength, h1, h2]
  · intro h1 h2 h3 h4
    refine ⟨"string is too short", ?_, by decide⟩
    have hn : ¬ (mi < 0 ∨ ma < 0) := by omega
    have hm : ¬ mi > ma := by omega
    simp [ValidateLength, hn, hm, h4]
  · intro h1 h2 h3 h4
    refine ⟨"string is too long", ?_, by decide⟩
    have hn : ¬ (mi < 0 ∨ ma < 0) := by omega
    have hm : ¬ mi > ma := by omega
    have hs : ¬ (s.length : Int) < mi := by omega
    simp [ValidateLength, hn, hm, hs, h4]
  · intro h1 h2 h3 h4 h5
    have hn : ¬ (mi < 0 ∨ ma < 0) := by omega
    have hm : ¬ mi > ma := by omega
    have hs : ¬ (s.length : Int) < mi := by omega
    have hl : ¬ (s.length : Int) > ma := by omega
    simp [ValidateLength, hn, hm, hs, hl]

/-- Claim C6 witness: the four concrete outcomes on sample inputs. -/
theorem validateLength_spec_witness :
    (∃ e, ValidateLength (("test").toList) 5 3 = some e ∧
      specErrKind e = some ErrKind.invalidRange) ∧
    (∃ e, ValidateLength (("hi").toList) 3 5 = some e ∧
      specErrKind e = some ErrKind.tooShort) ∧
    (∃ e, ValidateLength (("hello world").toList) 3 5 = some e ∧
      specErrKind e = some ErrKind.tooLong) ∧
    ValidateLength (("hello").toList) 3 5 = none :=
  ⟨(validateLength_spec (("test").toList) 5 3).1 (by norm_num),
   (validateLength_spec (("hi").toList) 3 5).2.1
     (by norm_num) (by norm_num) (by norm_num) (by decide),
   (validateLength_spec (("hello world").toList) 3 5).2.2.1
     (by norm_num) (by norm_num) (by norm_num) (by decide),
   (validateLength_spec (("hello").toList) 3 5).2.2.2
     (by norm_num) (by norm_num) (by norm_num) (by decide) (by decide)⟩

/-- Claim C10: on the signed 64-bit range, Abs returns the two's-complement
negation of a negative input and the input itself otherwise; on the minimum
representable value `-2 ^ 63` the negation wraps around and Abs returns that
same negative value. -/
theorem abs_wraparound_spec :
    (∀ n : Int, -(2 ^ 63) < n → n < 0 → Abs n = -n) ∧
    (∀ n : Int, 0 ≤ n → Abs n = n) ∧
    Abs (-(2 ^ 63)) = -(2 ^ 63) := by
  have hp63 : (2 : Int) ^ 63 = 9223372036854775808 := by norm_num
  have hp64 : (2 : Int) ^ 64 = 18446744073709551616 := by norm_num
  refine ⟨?_, ?_, ?_⟩
  · intro n h1 h2
    have hge : 0 ≤ -n + 2 ^ 63 := by omega
    have hlt : -n + 2 ^ 63 < 2 ^ 64 := by rw [hp64]; omega
    rw [Abs, if_pos h2, wrap64, Int.emod_eq_of_lt hge hlt]
    omega
  · intro n h
    have h2 : ¬ n < 0 := not_lt.mpr h
    simp [Abs, h2]
  · have hneg : (-(2 ^ 63) : Int) < 0 := by rw [hp63]; omega
    rw [Abs, if_pos hneg, wrap64]
    rw [neg_neg]
    have : (2 : Int) ^ 63 + 2 ^ 63 = 2 ^ 64 := by norm_num
    rw [this, Int.emod_self]
    omega

/-- Claim C10 witness: a negative, a nonnegative, and the minimum input. -/
theorem abs_wraparound_spec_witness :
    Abs (-5) = -(-5) ∧ Abs 7 = 7 :=
  ⟨abs_wraparound_spec.1 (-5) (by norm_num) (by norm_num),
   abs_wraparound_spec.2.1 7 (by norm_num)⟩

/-- Setting an element and reading with a default, in one equation. -/
theorem getD_set (l : GoStr) (i : Nat) (a d : Char) (k : Nat) :
    (l.set i a).getD k d = if i = k ∧ i < l.length then a else l.getD k d := by
  by_cases h2 : i < l.length
  · by_cases h1 : i = k
    · subst h1
      simp [List.getD_eq_getElem?_getD, List.getElem?_set, h2]
    · simp [List.getD_eq_getElem?_getD, List.getElem?_set_ne h1, h1]
  · rw [List.set_eq_of_length_le (by omega)]
    simp [h2]

/-- Reading a reversed list with a default. -/
theorem reverse_getD (l : GoStr) (i : Nat) (d : Char) (h : i < l.length) :
    l.reverse.getD i d = l.getD (l.length - 1 - i) d := by
  have h2 : l.length - 1 - i < l.length := by omega
  simp [List.getD_eq_getElem?_getD, List.getElem?_reverse, h,
    List.getElem?_eq_getElem, h2]

/-- Boolean character equality is symmetric. -/
theorem char_beq_comm (a b : Char) : (a == b) = (b == a) := by
  simp [Bool.beq_eq_decide_eq, eq_comm]

/-- The reversal loop preserves the length. -/
theorem revLoop_length (l : GoStr) (i j : Nat) :
    (revLoop l i j).length = l.length := by
  induction l, i, j using revLoop.induct with
  | case1 l i j h ih => rw [revLoop, dif_pos h, ih]; simp
  | case2 l i j h => rw [revLoop, dif_neg h]

/-- Pointwise description of the reversal loop: positions inside `[i, j]` are
mirrored, positions outside are untouched. -/
theorem revLoop_getD (l : GoStr) (i j : Nat) : j < l.length →
    ∀ (k : Nat) (d : Char), (revLoop l i j).getD k d =
      if i ≤ k ∧ k ≤ j then l.getD (i + j - k) d else l.getD k d := by
  induction l, i, j using revLoop.induct with
  | case1 l i j h ih =>
    intro hj k d
    rw [revLoop, dif_pos h]
    have hij : i < l.length := lt_trans h hj
    have hlen : ((l.set i (l.getD j default)).set j (l.getD i default)).length
        = l.length := by simp
    have hx : l.getD j default = l.getD j d := by
      rw [List.getD_eq_getElem l default hj, List.getD_eq_getElem l d hj]
    have hy : l.getD i default = l.getD i d := by
      rw [List.getD_eq_getElem l default hij, List.getD_eq_getElem l d hij]
    have hgd : ∀ (m : Nat), m ≠ i → m ≠ j →
        ((l.set i (l.getD j default)).set j (l.getD i default)).getD m d
          = l.getD m d := by
      intro m hmi hmj
      rw [getD_set, getD_set]
      simp [Ne.symm hmj, Ne.symm hmi]
    have hgi : ((l.set i (l.getD j default)).set j (l.getD i default)).getD i d
        = l.getD j d := by
      rw [getD_set, if_neg (by simp; intro hji; omega), getD_set,
        if_pos ⟨rfl, hij⟩, hx]
    have hgj : ((l.set i (l.getD j default)).set j (l.getD i default)).getD j d
        = l.getD i d := by
      rw [getD_set, if_pos ⟨rfl, by simp [hj]⟩, hy]
    rw [ih (by rw [hlen]; omega) k d]
    by_cases hk1 : i + 1 ≤ k ∧ k ≤ j - 1
    · rw [if_pos hk1, if_pos (by omega)]
      have he : i + 1 + (j - 1) - k = i + j - k := by omega
      rw [he, hgd (i + j - k) (by omega) (by omega)]
    · rw [if_neg hk1]
      by_cases hk2 : k = i
      · subst hk2
        rw [hgi, if_pos (by omega)]
        congr 1
        omega
      · by_cases hk3 : k = j
        · subst hk3
          rw [hgj, if_pos (by omega)]
          congr 1
          omega
        · rw [hgd k hk2 hk3, if_neg (by omega)]
  | case2 l i j h =>
    intro hj k d
    rw [revLoop, dif_neg h]
    by_cases hk : i ≤ k ∧ k ≤ j
    · rw [if_pos hk]
      congr 1
      omega
    · rw [if_neg hk]

/-- The two-pointer swap loop of the source computes list reversal. -/
theorem Reverse_eq_reverse (s : GoStr) : Reverse s = s.reverse := by
  apply List.ext_getElem
  · rw [Reverse, revLoop_length, List.length_reverse]
  · intro k h1 h2
    have hk : k < s.length := by rwa [Reverse, revLoop_length] at h1
    have hs : 0 < s.length := by omega
    have e1 : (Reverse s)[k] = (Reverse s).getD k default :=
      (List.getD_eq_getElem _ default h1).symm
    rw [e1, Reverse, revLoop_getD s 0 (s.length - 1) (by omega) k default,
      if_pos ⟨Nat.zero_le k, by omega⟩,
      List.getD_eq_getElem s default (show 0 + (s.length - 1) - k < s.length by omega),
      List.getElem_reverse]
    congr 1
    omega

/-- The palindrome comparison loop is invariant under reversing the list, as
long as the two pointers start at mirrored positions. -/
theorem palLoop_reverse (x : GoStr) : ∀ (n i j : Nat), j - i ≤ n →
    i + j + 1 = x.length → palLoop x.reverse i j = palLoop x i j := by
  intro n
  induction n with
  | zero =>
    intro i j hn hlen
    conv_lhs => rw [palLoop]
    conv_rhs => rw [palLoop]
    rw [dif_neg (by omega), dif_neg (by omega)]
  | succ n ihn =>
    intro i j hn hlen
    by_cases h : i < j
    · conv_lhs => rw [palLoop]
      conv_rhs => rw [palLoop]
      rw [dif_pos h, dif_pos h]
      have hjx : j < x.length := by omega
      have hix : i < x.length := by omega
      have hrl : x.reverse.length = x.length := List.length_reverse x
      have e1 : x.reverse.getD i default = x.getD j default := by
        rw [reverse_getD x i default hix]
        congr 1
        omega
      have e2 : x.reverse.getD j default = x.getD i default := by
        rw [reverse_getD x j default hjx]
        congr 1
        omega
      rw [e1, e2, ihn (i + 1) (j - 1) (by omega) (by omega), char_beq_comm]
    · conv_lhs => rw [palLoop]
      conv_rhs => rw [palLoop]
      rw [dif_neg h, dif_neg h]

/-- Claim C8: reversing the input never changes the palindrome verdict. -/
theorem isPalindrome_reverse_invariant (t : GoStr) :
    IsPalindrome (Reverse t) = IsPalindrome t := by
  have hrev : cleanedRunes (Reverse t) = (cleanedRunes t).reverse := by
    rw [Reverse_eq_reverse, cleanedRunes, cleanedRunes, List.filter_reverse,
      List.map_reverse]
  rw [IsPalindrome, IsPalindrome, hrev, List.length_reverse]
  rcases hx : cleanedRunes t with _ | ⟨c, r⟩
  · rfl
  · exact palLoop_reverse (c :: r) (c :: r).length 0 ((c :: r).length - 1)
      (by omega) (by simp)

/-- Claim C9: Swap is the identity when an index is out of range or the
indices coincide, and otherwise exchanges exactly the runes at the two
positions, leaving length and all other positions unchanged. -/
theorem swap_spec (s : GoStr) (i j : Int) :
    ((i < 0 ∨ j < 0 ∨ (s.length : Int) ≤ i ∨ (s.length : Int) ≤ j ∨ i = j) →
      Swap s i j = s) ∧
    (0 ≤ i → i < (s.length : Int) → 0 ≤ j → j < (s.length : Int) → i ≠ j →
      (Swap s i j).length = s.length ∧
      (∀ d : Char, (Swap s i j).getD i.toNat d = s.getD j.toNat d) ∧
      (∀ d : Char, (Swap s i j).getD j.toNat d = s.getD i.toNat d) ∧
      (∀ k : Nat, k ≠ i.toNat → k ≠ j.toNat →
        ∀ d : Char, (Swap s i j).getD k d = s.getD k d)) := by
  constructor
  · intro h
    rw [Swap, if_pos h]
  · intro h1 h2 h3 h4 h5
    have hc : ¬ (i < 0 ∨ j < 0 ∨ (s.length : Int) ≤ i ∨ (s.length : Int) ≤ j ∨ i = j) := by
      push_neg
      exact ⟨not_lt.mp (not_lt.mpr h1), not_lt.mp (not_lt.mpr h3), h2, h4, h5⟩
    have hin : i.toNat < s.length := by omega
    have hjn : j.toNat < s.length := by omega
    have hne : i.toNat ≠ j.toNat := by omega
    rw [Swap, if_neg hc]
    refine ⟨by simp, ?_, ?_, ?_⟩
    · intro d
      rw [getD_set, if_neg (by simp; intro hji; exact absurd hji.symm hne), getD_set,
        if_pos ⟨rfl, hin⟩, List.getD_eq_getElem s default hjn,
        List.getD_eq_getElem s d hjn]
    · intro d
      rw [getD_set, if_pos ⟨rfl, by simp [hjn]⟩,
        List.getD_eq_getElem s default hin, List.getD_eq_getElem s d hin]
    · intro k hk1 hk2 d
      rw [getD_set, getD_set]
      simp [Ne.symm hk2, Ne.symm hk1]

/-- Claim C9 witness: an out-of-range no-op and a concrete exchange. -/
theorem swap_spec_witness :
    Swap (("abc").toList) 0 5 = ("abc").toList ∧
    (Swap (("hello").toList) 1 3).getD (Int.toNat 1) default
      = (("hello").toList).getD (Int.toNat 3) default := by
  constructor
  · exact (swap_spec (("abc").toList) 0 5).1 (by right; right; right; left; decide)
  · exact (((swap_spec (("hello").toList) 1 3).2 (by norm_num) (by decide)
      (by norm_num) (by decide) (by norm_num)).2.1 default)

/-- Characterization of the prefix test. -/
theorem startsWith_iff : ∀ (s p : GoStr), startsWith s p = true ↔ ∃ t, s = p ++ t
  | [], [] => by simp [startsWith]
  | a :: s, [] => by simp [startsWith]
  | [], b :: p => by simp [startsWith]
  | a :: s, b :: p => by
    rw [startsWith, Bool.and_eq_true, beq_iff_eq, startsWith_iff s p]
    constructor
    · rintro ⟨rfl, t, rfl⟩
      exact ⟨t, rfl⟩
    · rintro ⟨t, h⟩
      rw [List.cons_append] at h
      injection h with h1 h2
      exact ⟨h1, t, h2⟩

/-- A prefix is no longer than the list it starts. -/
theorem startsWith_length (s p : GoStr) (h : startsWith s p = true) :
    p.length ≤ s.length := by
  obtain ⟨t, rfl⟩ := (startsWith_iff s p).mp h
  rw [List.length_append]
  omega

/-- When the search fails, the pattern occurs at no position. -/
theorem listIndexOf_none : ∀ (s pat : GoStr), listIndexOf s pat = none →
    ∀ i : Nat, startsWith (s.drop i) pat = false
  | [], pat => by
    intro h i
    rw [listIndexOf] at h
    by_cases hs : startsWith [] pat
    · rw [if_pos hs] at h
      exact absurd h (by simp)
    · rw [List.drop_nil]
      simp only [Bool.not_eq_true] at hs
      exact hs
  | c :: t, pat => by
    intro h i
    rw [listIndexOf] at h
    by_cases hs : startsWith (c :: t) pat
    · rw [if_pos hs] at h
      exact absurd h (by simp)
    · rw [if_neg hs] at h
      have ht : listIndexOf t pat = none := by
        simpa [Option.map_eq_none'] using h
      cases i with
      | zero =>
        rw [List.drop_zero]
        simp only [Bool.not_eq_true] at hs
        exact hs
      | succ i =>
        rw [List.drop_succ_cons]
        exact listIndexOf_none t pat ht i

/-- When the search succeeds it returns the leftmost occurrence: the pattern
starts there and at no earlier position. -/
theorem listIndexOf_some : ∀ (s pat : GoStr) (i : Nat), listIndexOf s pat = some i →
    startsWith (s.drop i) pat = true ∧
      ∀ j : Nat, j < i → startsWith (s.drop j) pat = false
  | [], pat, i => by
    intro h
    rw [listIndexOf] at h
    by_cases hs : startsWith [] pat
    · rw [if_pos hs] at h
      injection h with h0
      subst h0
      exact ⟨by rwa [List.drop_zero], fun j hj => absurd hj (Nat.not_lt_zero j)⟩
    · rw [if_neg hs] at h
      exact absurd h (by simp)
  | c :: t, pat, i => by
    intro h
    rw [listIndexOf] at h
    by_cases hs : startsWith (c :: t) pat
    · rw [if_pos hs] at h
      injection h with h0
      subst h0
      exact ⟨by rwa [List.drop_zero], fun j hj => absurd hj (Nat.not_lt_zero j)⟩
    · rw [if_neg hs] at h
      rw [Option.map_eq_some'] at h
      obtain ⟨a, ha, hai⟩ := h
      obtain ⟨h1, h2⟩ := listIndexOf_some t pat a ha
      subst hai
      refine ⟨by rwa [List.drop_succ_cons], ?_⟩
      intro j hj
      cases j with
      | zero =>
        rw [List.drop_zero]
        simp only [Bool.not_eq_true] at hs
        exact hs
      | succ j =>
        rw [List.drop_succ_cons]
        exact h2 j (by omega)

/-- The splitting loop always yields at least one part. -/
theorem splitAux_ne_nil (sep : GoStr) : ∀ (fuel : Nat) (s : GoStr),
    splitAux sep fuel s ≠ []
  | 0, s => by rw [splitAux]; simp
  | fuel + 1, s => by
    rw [splitAux]
    cases listIndexOf s sep <;> simp

/-- Joining the parts of the splitting loop with the separator restores the
input string. -/
theorem splitAux_join (sep : GoStr) (hsep : sep ≠ []) :
    ∀ (fuel : Nat) (s : GoStr), s.length < fuel →
      joinSep sep (splitAux sep fuel s) = s := by
  intro fuel
  induction fuel with
  | zero =>
    intro s h
    omega
  | succ fuel ih =>
    intro s h
    cases hidx : listIndexOf s sep with
    | none => simp [splitAux, hidx, joinSep]
    | some i =>
      rw [splitAux, hidx]
      show joinSep sep (s.take i :: splitAux sep fuel (s.drop (i + sep.length))) = s
      have hsw := (listIndexOf_some s sep i hidx).1
      have hsl : 0 < sep.length := List.length_pos.mpr hsep
      have hlen : i + sep.length ≤ s.length := by
        have hb := startsWith_length _ _ hsw
        rw [List.length_drop] at hb
        omega
      have hrec := ih (s.drop (i + sep.length)) (by rw [List.length_drop]; omega)
      rcases hsplit : splitAux sep fuel (s.drop (i + sep.length)) with _ | ⟨y, t⟩
      · exact absurd hsplit (splitAux_ne_nil sep fuel _)
      · rw [hsplit] at hrec
        obtain ⟨r, hr⟩ := (startsWith_iff _ _).mp hsw
        have hdd : List.drop (i + sep.length) s = r := by
          rw [← List.drop_drop, hr, List.drop_left]
        rw [joinSep]
        calc List.take i s ++ sep ++ joinSep sep (y :: t)
            = List.take i s ++ sep ++ r := by rw [hrec, hdd]
          _ = List.take i s ++ (sep ++ r) := List.append_assoc ..
          _ = List.take i s ++ List.drop i s := by rw [hr]
          _ = s := List.take_append_drop i s

/-- No part produced by the splitting loop contains an occurrence of the
separator. -/
theorem splitAux_noOccur (sep : GoStr) (hsep : sep ≠ []) :
    ∀ (fuel : Nat) (s : GoStr), s.length < fuel →
      ∀ part ∈ splitAux sep fuel s, NoOccur part sep := by
  intro fuel
  induction fuel with
  | zero =>
    intro s h
    omega
  | succ fuel ih =>
    intro s h part hpart
    rw [splitAux] at hpart
    cases hidx : listIndexOf s sep with
    | none =>
      rw [hidx] at hpart
      simp only [List.mem_singleton] at hpart
      rw [hpart]
      exact fun k => listIndexOf_none s sep hidx k
    | some i =>
      rw [hidx] at hpart
      simp only [List.mem_cons] at hpart
      rcases hpart with rfl | hmem
      · intro k
        by_contra hk
        simp only [Bool.not_eq_false] at hk
        obtain ⟨r, hr⟩ := (startsWith_iff _ _).mp hk
        have hmin := (listIndexOf_some s sep i hidx).2
        have hsl : 0 < sep.length := List.length_pos.mpr hsep
        have hlen1 : sep.length + r.length = ((s.take i).drop k).length := by
          rw [hr, List.length_append]
        rw [List.length_drop, List.length_take] at hlen1
        have hki : k < i := by omega
        have hup : startsWith (s.drop k) sep = true := by
          apply (startsWith_iff _ _).mpr
          have h1 : (s.take i).drop k = (s.drop k).take (i - k) := List.drop_take ..
          refine ⟨r ++ (s.drop k).drop (i - k), ?_⟩
          calc s.drop k
              = (s.drop k).take (i - k) ++ (s.drop k).drop (i - k) :=
                (List.take_append_drop _ _).symm
            _ = (s.take i).drop k ++ (s.drop k).drop (i - k) := by rw [h1]
            _ = (sep ++ r) ++ (s.drop k).drop (i - k) := by rw [hr]
            _ = sep ++ (r ++ (s.drop k).drop (i - k)) := List.append_assoc ..
        rw [hmin k hki] at hup
        exact absurd hup (by simp)
      · have hsw := (listIndexOf_some s sep i hidx).1
        have hsl : 0 < sep.length := List.length_pos.mpr hsep
        have hb := startsWith_length _ _ hsw
        rw [List.length_drop] at hb
        exact ih (s.drop (i + sep.length)) (by rw [List.length_drop]; omega) part hmem

/-- Claim C7: SafeSplit fails with an InvalidArgument error exactly when the
separator is empty and the string is not; splitting the empty string by the
empty separator yields the empty sequence; splitting the empty string by a
non-empty separator yields one empty part; and for every non-empty separator
the parts join with the separator back to the input and no part contains an
occurrence of the separator. -/
theorem safeSplit_spec (s sep : GoStr) :
    ((SafeSplit s sep).2.isSome ↔ (sep = [] ∧ s ≠ [])) ∧
    (sep = [] → s ≠ [] → ∃ e, SafeSplit s sep = ([], some e) ∧
      specErrKind e = some ErrKind.invalidArgument) ∧
    SafeSplit [] [] = ([], none) ∧
    (sep ≠ [] → SafeSplit [] sep = ([[]], none)) ∧
    (sep ≠ [] → (SafeSplit s sep).2 = none ∧
      joinSep sep (SafeSplit s sep).1 = s ∧
      ∀ part ∈ (SafeSplit s sep).1, NoOccur part sep) := by
  refine ⟨?_, ?_, ?_, ?_, ?_⟩
  · by_cases hc : sep = [] ∧ s ≠ [] <;> simp [SafeSplit, hc]
  · intro h1 h2
    refine ⟨"separator cannot be empty if string is not empty", ?_, by decide⟩
    simp [SafeSplit, h1, h2]
  · rfl
  · intro hsep
    rcases sep with _ | ⟨b, p⟩
    · exact absurd rfl hsep
    · rfl
  · intro hsep
    have h2 : ¬ (sep = [] ∧ s ≠ []) := by
      intro hc
      exact hsep hc.1
    have hval : SafeSplit s sep = (goSplit s sep, none) := by
      rw [SafeSplit, if_neg h2]
    rw [hval]
    refine ⟨rfl, ?_, ?_⟩
    · show joinSep sep (goSplit s sep) = s
      rw [goSplit, if_neg hsep]
      exact splitAux_join sep hsep (s.length + 1) s (by omega)
    · show ∀ part ∈ goSplit s sep, NoOccur part sep
      simp only [goSplit, if_neg hsep]
      exact splitAux_noOccur sep hsep (s.length + 1) s (by omega)

/-- Claim C7 witness: the error case, the two empty-string cases, and a
concrete three-part split. -/
theorem safeSplit_spec_witness :
    (∃ e, SafeSplit (("x").toList) [] = ([], some e) ∧
      specErrKind e = some ErrKind.invalidArgument) ∧
    SafeSplit [] [] = ([], none) ∧
    SafeSplit [] ((",").toList) = ([[]], none) ∧
    joinSep ((",").toList) (SafeSplit (("a,b,c").toList) ((",").toList)).1
      = ("a,b,c").toList := by
  refine ⟨?_, ?_, ?_, ?_⟩
  · exact (safeSplit_spec (("x").toList) []).2.1 rfl (by decide)
  · exact (safeSplit_spec [] []).2.2.1
  · exact (safeSplit_spec [] ((",").toList)).2.2.2.1 (by decide)
  · exact ((safeSplit_spec (("a,b,c").toList) ((",").toList)).2.2.2.2 (by decide)).2.1

end GoUtils
